import Mathlib

/-!
Verification development for the ABCU advising-assistance program
(`ProjectTwo.cpp`). The program loads a comma-separated file of course
records into an in-memory catalog keyed by the uppercased course number,
and serves an interactive menu that lists courses or shows one course's
title and prerequisites.

The embedding below translates the C++ source into Lean:

* strings are modelled as Lean `String`s over their character lists; all
  program data is ASCII, where byte-wise C-locale case mapping and
  classification coincide with `Char.toUpper` and the explicit
  space-character test used here;
* the `std::unordered_map` catalog is modelled as an association list
  whose operations insert-or-replace by key; the map's iteration order is
  irrelevant to every observable behaviour (lookups, and the sorted key
  view, which sorts the collected keys);
* file input is an `Option (List String)` — `none` models a file that
  cannot be opened, `some lines` the list of its lines;
* `std::getline(stream, item, ',')` splitting is modelled exactly,
  including its dropping of a trailing empty field after a final comma;
* `std::stoi` on the short menu strings is modelled by sign-then-digits
  longest-prefix parsing (the menu only parses strings of length ≤ 2, so
  out-of-range overflow cannot occur).
-/

namespace ProjectTwo

/-- The character class erased by `trim` in the C++ source: `std::isspace`
in the C locale (space, tab, LF, VT, FF, CR), with the source's redundant
extra checks for CR and LF. -/
def is_space_or_cntrl (c : Char) : Bool :=
  c = ' ' || c = '\t' || c = '\n' || c = '\x0b' || c = '\x0c' || c = '\r'

/-- `trim`: drop leading and trailing space/CR/LF characters. -/
def trim (s : String) : String :=
  ⟨((s.data.dropWhile is_space_or_cntrl).reverse.dropWhile is_space_or_cntrl).reverse⟩

/-- `upper`: uppercase copy via byte-wise ASCII case mapping
(`std::toupper` in the C locale agrees with `Char.toUpper` on ASCII). -/
def upper (s : String) : String :=
  ⟨s.data.map Char.toUpper⟩

/-- One `std::getline(ss, item, ',')` loop step: accumulate the current
field until a comma; after consuming a comma with nothing left in the
stream, the next `getline` fails immediately, so no further field is
produced. -/
def splitFieldsAux : List Char → List Char → List String
  | [], acc => [⟨acc.reverse⟩]
  | c :: rest, acc =>
    if c = ',' then
      String.mk acc.reverse :: (if rest.isEmpty then [] else splitFieldsAux rest [])
    else
      splitFieldsAux rest (c :: acc)

/-- `split_csv_simple`: split a line on commas with `std::getline`
semantics, trimming each field. On the empty string the first `getline`
already fails, yielding no fields at all. -/
def split_csv_simple (line : String) : List String :=
  if line.data.isEmpty then [] else (splitFieldsAux line.data []).map trim

/-- The `Course` record: number, title, prerequisites. -/
structure Course where
  number : String
  title : String
  prereqs : List String
deriving DecidableEq

/-- The catalog's backing store: an association list standing in for
`std::unordered_map<std::string, Course>`. -/
abbrev Catalog := List (String × Course)

/-- `data_[k] = c` on the map: replace the entry at key `k` if present,
otherwise add a new entry. -/
def setKV : Catalog → String → Course → Catalog
  | [], k, c => [(k, c)]
  | (k', c') :: rest, k, c =>
    if k' = k then (k, c) :: rest else (k', c') :: setKV rest k c

/-- `CourseCatalog::upsert`: store the record at its uppercased number. -/
def upsert (cat : Catalog) (c : Course) : Catalog :=
  setKV cat (upper c.number) c

/-- Map lookup (`data_.find`). -/
def lookup : Catalog → String → Option Course
  | [], _ => none
  | (k', c') :: rest, k => if k' = k then some c' else lookup rest k

/-- `CourseCatalog::get`: normalize the query, then look it up. -/
def get (cat : Catalog) (number : String) : Option Course :=
  lookup cat (upper number)

/-- `CourseCatalog::contains`. -/
def contains (cat : Catalog) (number : String) : Bool :=
  (get cat number).isSome

/-- The map's key set, in backing-store order. -/
def keys (cat : Catalog) : List String :=
  cat.map Prod.fst

/-- `CourseCatalog::sorted_numbers`: collect the keys and sort them
ascending (`std::sort` with `operator<` on `std::string`, i.e.
lexicographic order). -/
def sorted_numbers (cat : Catalog) : List String :=
  List.insertionSort (· ≤ ·) (keys cat)

/-- `CourseCatalog::clear`. -/
def clear (_cat : Catalog) : Catalog := []

/-- `CourseCatalog::empty`. -/
def emptyCat (cat : Catalog) : Bool := cat.isEmpty

/-- The loader's failure modes, as structured values. The C++ source
reports them as message strings; `errMessage` reproduces those strings. -/
inductive LoadError where
  | openError (path : String)
  | parseError (lineNo : Nat)
  | invalidDataError (lineNo : Nat)
deriving DecidableEq

/-- The exact error strings produced by `load_catalog_from_csv`. -/
def errMessage : LoadError → String
  | .openError p => "Could not open file: " ++ p
  | .parseError n =>
      "Parse error on line " ++ toString n ++ ": need at least courseNumber and courseTitle."
  | .invalidDataError n =>
      "Invalid data on line " ++ toString n ++ ": empty course number or title."

/-- The loader's line loop. `done` counts lines already consumed, so the
current line's 1-based number is `done + 1` (blank lines included in the
count). Mirrors the body of `load_catalog_from_csv`: trim, skip blank,
split, require two fields, reject empty number/title, collect the
remaining fields (uppercased, empties dropped) as prerequisites, upsert
into the temporary catalog. -/
def loadLines : Nat → Catalog → List String → Except LoadError Catalog
  | _, temp, [] => .ok temp
  | done, temp, raw :: rest =>
    let line := trim raw
    if line = "" then loadLines (done + 1) temp rest
    else
      match split_csv_simple line with
      | f0 :: f1 :: rfs =>
        if upper f0 = "" ∨ f1 = "" then .error (.invalidDataError (done + 1))
        else
          loadLines (done + 1)
            (upsert temp ⟨upper f0, f1, (rfs.map upper).filter (fun p => p ≠ "")⟩) rest
      | _ => .error (.parseError (done + 1))

/-- `load_catalog_from_csv`: fail with `openError` when the file cannot be
opened, otherwise run the line loop on a fresh temporary catalog. The
populated catalog is returned only when every line succeeded. -/
def load_catalog_from_csv (path : String) (file : Option (List String)) :
    Except LoadError Catalog :=
  match file with
  | none => .error (.openError path)
  | some lines => loadLines 0 [] lines

/-- The menu's load command (case 1 of `main`): the live catalog is
replaced by the freshly built one exactly when the load succeeded;
on any error the live catalog is left as it was. -/
def applyLoadCommand (live : Catalog) (path : String) (file : Option (List String)) :
    Catalog :=
  match load_catalog_from_csv path file with
  | .ok newCatalog => newCatalog
  | .error _ => live

/-- A line the loader accepts: blank after trimming, or at least two
fields with nonempty number and title. -/
def lineOK (raw : String) : Bool :=
  if trim raw = "" then true
  else
    match split_csv_simple (trim raw) with
    | f0 :: f1 :: _ => if upper f0 = "" ∨ f1 = "" then false else true
    | _ => false

/-- The course a single line contributes when the loader accepts it
(`none` for blank or rejected lines); on files the loader accepts, the
loaded catalog is the fold of `upsert` over these. -/
def parseCourse (raw : String) : Option Course :=
  if trim raw = "" then none
  else
    match split_csv_simple (trim raw) with
    | f0 :: f1 :: rfs =>
      if upper f0 = "" ∨ f1 = "" then none
      else some ⟨upper f0, f1, (rfs.map upper).filter (fun p => p ≠ "")⟩
    | _ => none

/-- The course sequence a file contributes, in file order. -/
def parsedCourses (lines : List String) : List Course :=
  lines.filterMap parseCourse

/-- How one prerequisite entry is displayed by `print_course_details`:
the resolved record's own number when the lookup succeeds, the stored
string verbatim otherwise. -/
def displayedPrereq (cat : Catalog) (pnum : String) : String :=
  match get cat pnum with
  | some pc => pc.number
  | none => pnum

/-- The prerequisites line of the detail view. -/
def prereqLine (cat : Catalog) (c : Course) : String :=
  if c.prereqs.isEmpty then "Prerequisites: None"
  else "Prerequisites: " ++ String.intercalate ", " (c.prereqs.map (displayedPrereq cat))

/-- `print_course_details`, as the list of lines it writes: uppercase the
user's input, look it up (the lookup normalizes again), and print either
the not-found message or the course header followed by its
prerequisites line. -/
def print_course_details (cat : Catalog) (userInput : String) : List String :=
  match get cat (upper userInput) with
  | none => [upper userInput ++ " was not found."]
  | some c => [c.number ++ ", " ++ c.title, prereqLine cat c]

/-- `print_course_list`, as the list of lines it writes. -/
def print_course_list (cat : Catalog) : List String :=
  "Here is a sample schedule:" ::
    (sorted_numbers cat).filterMap
      (fun num => (get cat num).map (fun c => c.number ++ ", " ++ c.title))

/-- Longest digit-prefix value used by the `std::stoi` model. -/
def stoiNat (cs : List Char) : Option Nat :=
  let ds := cs.takeWhile Char.isDigit
  if ds.isEmpty then none else some (ds.foldl (fun a c => a * 10 + (c.toNat - 48)) 0)

/-- `std::stoi` on a short, pre-trimmed string: optional sign, then a
nonempty longest digit prefix, remaining characters ignored; `none`
models the `std::invalid_argument` throw. The menu only parses strings
of length ≤ 2, so overflow (`std::out_of_range`) cannot occur. -/
def stoi (s : String) : Option Int :=
  match s.data with
  | '-' :: rest => (stoiNat rest).map (fun n => -(n : Int))
  | '+' :: rest => (stoiNat rest).map (fun n => (n : Int))
  | cs => (stoiNat cs).map (fun n => (n : Int))

/-- What one iteration of the menu loop does with one input line. -/
inductive MenuOutcome where
  | endOfInput
  | blankPrompt
  | invalidRaw (echoed : String)
  | invalidNum (echoed : Int)
  | command (option : Int)
deriving DecidableEq

/-- One iteration of `main`'s menu loop, up to dispatch: `none` input is a
closed stream (clean exit); otherwise trim, report blank input, reject
inputs longer than two characters echoing the trimmed text, reject
unparsable input echoing the trimmed text, and otherwise dispatch on the
parsed integer — a command for 1/2/3/9, else the invalid message echoing
the parsed integer. -/
def menu_step (input : Option String) : MenuOutcome :=
  match input with
  | none => .endOfInput
  | some raw0 =>
    if trim raw0 = "" then .blankPrompt
    else if 2 < (trim raw0).length then .invalidRaw (trim raw0)
    else
      match stoi (trim raw0) with
      | none => .invalidRaw (trim raw0)
      | some n =>
        if n = 1 ∨ n = 2 ∨ n = 3 ∨ n = 9 then .command n else .invalidNum n

/-- Case-fold consistency: every key equals the uppercased number of the
record stored under it. -/
def KeysNormalized (cat : Catalog) : Prop :=
  ∀ k c, (k, c) ∈ cat → k = upper c.number

/-- Catalog states reachable by any sequence of `upsert`, `clear`, and
(successful) `load` operations from the empty initial state. -/
inductive Reachable : Catalog → Prop where
  | init : Reachable []
  | doUpsert {cat : Catalog} (c : Course) :
      Reachable cat → Reachable (upsert cat c)
  | doClear {cat : Catalog} :
      Reachable cat → Reachable (clear cat)
  | doLoad {cat newCat : Catalog} (path : String) (file : Option (List String)) :
      Reachable cat → load_catalog_from_csv path file = .ok newCat → Reachable newCat

/-! ### Basic facts about the character and string utilities -/

/-- `Char.ofNat` round-trips on small (in particular ASCII) codepoints. -/
theorem char_toNat_ofNat_small (n : Nat) (h : n < 55296) : (Char.ofNat n).toNat = n := by
  unfold Char.ofNat
  rw [dif_pos (Or.inl h)]
  rfl

/-- ASCII uppercasing is idempotent on characters. -/
theorem toUpper_toUpper (c : Char) : c.toUpper.toUpper = c.toUpper := by
  simp only [Char.toUpper]
  by_cases h : c.toNat ≥ 97 ∧ c.toNat ≤ 122
  · rw [if_pos h]
    have h32 : (Char.ofNat (c.toNat - 32)).toNat = c.toNat - 32 :=
      char_toNat_ofNat_small _ (by omega)
    rw [if_neg (by rw [h32]; omega)]
  · rw [if_neg h, if_neg h]

/-- `upper` is idempotent. -/
theorem upper_upper (s : String) : upper (upper s) = upper s := by
  unfold upper
  simp only [List.map_map]
  exact congrArg String.mk (List.map_congr_left (fun c _ => toUpper_toUpper c))

/-! ### Basic facts about the catalog's backing store -/

/-- Lookup after insert-or-replace: the new record at the written key,
everything else untouched. -/
theorem lookup_setKV (cat : Catalog) (k : String) (c : Course) (q : String) :
    lookup (setKV cat k c) q = if k = q then some c else lookup cat q := by
  induction cat with
  | nil => simp [setKV, lookup]
  | cons kv rest ih =>
    obtain ⟨k', c'⟩ := kv
    by_cases hk : k' = k
    · subst hk
      by_cases hq : k' = q <;> simp [setKV, lookup, hq]
    · by_cases hq : k' = q
      · subst hq
        have hk2 : ¬k = k' := fun h => hk h.symm
        simp [setKV, hk, hk2, lookup]
      · simp [setKV, hk, lookup, hq, ih]

/-- Lookup after `upsert`. -/
theorem lookup_upsert (cat : Catalog) (c : Course) (q : String) :
    lookup (upsert cat c) q = if upper c.number = q then some c else lookup cat q :=
  lookup_setKV cat (upper c.number) c q

/-- Unfolding `keys` over a cons cell. -/
theorem keys_cons (k : String) (c : Course) (rest : Catalog) :
    keys ((k, c) :: rest) = k :: keys rest := rfl

/-- Entries of the store after insert-or-replace come from the write or
from the old store. -/
theorem mem_setKV (cat : Catalog) (k : String) (c : Course) (entry : String × Course)
    (h : entry ∈ setKV cat k c) : entry = (k, c) ∨ entry ∈ cat := by
  induction cat with
  | nil => simpa [setKV] using h
  | cons kv rest ih =>
    obtain ⟨k', c'⟩ := kv
    by_cases hk : k' = k
    · subst hk
      rcases (by simpa [setKV] using h : entry = (k', c) ∨ entry ∈ rest) with h' | h'
      · exact Or.inl h'
      · exact Or.inr (List.mem_cons_of_mem _ h')
    · rcases (by simpa [setKV, hk] using h : entry = (k', c') ∨ entry ∈ setKV rest k c) with h' | h'
      · exact Or.inr (by simp [h'])
      · rcases ih h' with h'' | h''
        · exact Or.inl h''
        · exact Or.inr (List.mem_cons_of_mem _ h'')

/-- Keys after insert-or-replace come from the old keys or the written key. -/
theorem mem_keys_setKV (cat : Catalog) (k : String) (c : Course) (q : String)
    (h : q ∈ keys (setKV cat k c)) : q ∈ keys cat ∨ q = k := by
  rcases List.mem_map.1 h with ⟨⟨k', c'⟩, hmem, hq⟩
  rcases mem_setKV cat k c _ hmem with h' | h'
  · right
    rw [← hq, h']
  · left
    exact List.mem_map.2 ⟨_, h', hq⟩

/-- Insert-or-replace preserves distinctness of keys. -/
theorem nodup_keys_setKV (cat : Catalog) (k : String) (c : Course)
    (h : (keys cat).Nodup) : (keys (setKV cat k c)).Nodup := by
  induction cat with
  | nil => simp [setKV, keys]
  | cons kv rest ih =>
    obtain ⟨k', c'⟩ := kv
    rw [keys_cons, List.nodup_cons] at h
    by_cases hk : k' = k
    · subst hk
      simpa [setKV, keys_cons, List.nodup_cons] using h
    · have hstep : setKV ((k', c') :: rest) k c = (k', c') :: setKV rest k c := by
        simp [setKV, hk]
      rw [hstep, keys_cons, List.nodup_cons]
      refine ⟨?_, ih h.2⟩
      intro hmem
      rcases mem_keys_setKV rest k c k' hmem with h' | h'
      · exact h.1 h'
      · exact hk h'

/-- A successful lookup locates an actual entry of the store. -/
theorem lookup_mem (cat : Catalog) (q : String) (c : Course)
    (h : lookup cat q = some c) : (q, c) ∈ cat := by
  induction cat with
  | nil => simp [lookup] at h
  | cons kv rest ih =>
    obtain ⟨k', c'⟩ := kv
    by_cases hq : k' = q
    · subst hq
      have h' : c' = c := by simpa [lookup] using h
      rw [← h']
      exact List.mem_cons_self _ _
    · simp only [lookup, if_neg hq] at h
      exact List.mem_cons_of_mem _ (ih h)

/-- A present key is found. -/
theorem lookup_isSome_iff (cat : Catalog) (q : String) :
    (lookup cat q).isSome = true ↔ q ∈ keys cat := by
  induction cat with
  | nil => simp [lookup, keys]
  | cons kv rest ih =>
    obtain ⟨k', c'⟩ := kv
    by_cases hq : k' = q
    · subst hq
      simp [lookup, keys_cons]
    · simp only [lookup, if_neg hq, keys_cons, List.mem_cons]
      rw [ih]
      constructor
      · exact fun h => Or.inr h
      · rintro (h | h)
        · exact absurd h.symm hq
        · exact h

/-! ### Unfolding equations for the loader's line loop -/

/-- One step of the line loop, as an equation. -/
theorem loadLines_cons (done : Nat) (temp : Catalog) (raw : String) (rest : List String) :
    loadLines done temp (raw :: rest) =
      (if trim raw = "" then loadLines (done + 1) temp rest
       else
         match split_csv_simple (trim raw) with
         | f0 :: f1 :: rfs =>
           if upper f0 = "" ∨ f1 = "" then .error (.invalidDataError (done + 1))
           else
             loadLines (done + 1)
               (upsert temp ⟨upper f0, f1, (rfs.map upper).filter (fun p => p ≠ "")⟩) rest
         | _ => .error (.parseError (done + 1))) := rfl

/-- A blank line is skipped, advancing only the line counter. -/
theorem loadLines_cons_blank (done : Nat) (temp : Catalog) (raw : String)
    (rest : List String) (h : trim raw = "") :
    loadLines done temp (raw :: rest) = loadLines (done + 1) temp rest := by
  rw [loadLines_cons, if_pos h]

/-- A non-blank line with fewer than two fields stops the loop with a
parse error carrying the line's 1-based number. -/
theorem loadLines_cons_short (done : Nat) (temp : Catalog) (raw : String)
    (rest : List String) (h1 : trim raw ≠ "")
    (h2 : (split_csv_simple (trim raw)).length < 2) :
    loadLines done temp (raw :: rest) = .error (.parseError (done + 1)) := by
  rw [loadLines_cons, if_neg h1]
  split
  · rename_i f0 f1 rfs heq
    rw [heq] at h2
    simp at h2
    omega
  · rfl

/-- A non-blank two-field line with empty number or title stops the loop
with an invalid-data error carrying the line's 1-based number. -/
theorem loadLines_cons_invalid (done : Nat) (temp : Catalog) (raw : String)
    (rest : List String) (f0 f1 : String) (rfs : List String) (h1 : trim raw ≠ "")
    (hs : split_csv_simple (trim raw) = f0 :: f1 :: rfs) (h2 : upper f0 = "" ∨ f1 = "") :
    loadLines done temp (raw :: rest) = .error (.invalidDataError (done + 1)) := by
  rw [loadLines_cons, if_neg h1, hs]
  dsimp only
  rw [if_pos h2]

/-- An accepted line contributes its course to the temporary catalog. -/
theorem loadLines_cons_course (done : Nat) (temp : Catalog) (raw : String)
    (rest : List String) (f0 f1 : String) (rfs : List String) (h1 : trim raw ≠ "")
    (hs : split_csv_simple (trim raw) = f0 :: f1 :: rfs)
    (h2 : ¬(upper f0 = "" ∨ f1 = "")) :
    loadLines done temp (raw :: rest) =
      loadLines (done + 1)
        (upsert temp ⟨upper f0, f1, (rfs.map upper).filter (fun p => p ≠ "")⟩) rest := by
  rw [loadLines_cons, if_neg h1, hs]
  dsimp only
  rw [if_neg h2]

/-- Blank lines contribute no course. -/
theorem parseCourse_blank (raw : String) (h : trim raw = "") : parseCourse raw = none := by
  simp [parseCourse, h]

/-- The course contributed by an accepted line. -/
theorem parseCourse_eq_some (raw : String) (f0 f1 : String) (rfs : List String)
    (h1 : trim raw ≠ "") (hs : split_csv_simple (trim raw) = f0 :: f1 :: rfs)
    (h2 : ¬(upper f0 = "" ∨ f1 = "")) :
    parseCourse raw = some ⟨upper f0, f1, (rfs.map upper).filter (fun p => p ≠ "")⟩ := by
  unfold parseCourse
  rw [if_neg h1, hs]
  dsimp only
  rw [if_neg h2]

/-- A line whose trimmed form splits into at least one field is not
blank (the empty string splits into no fields at all). -/
theorem trim_ne_of_split_cons (raw : String) (f0 : String) (fs : List String)
    (hs : split_csv_simple (trim raw) = f0 :: fs) : trim raw ≠ "" := by
  intro hb
  rw [hb] at hs
  simp [split_csv_simple] at hs

/-- Blank lines are accepted. -/
theorem lineOK_of_blank (raw : String) (h : trim raw = "") : lineOK raw = true := by
  simp [lineOK, h]

/-- Lines with two nonempty leading fields are accepted. -/
theorem lineOK_of_fields (raw : String) (f0 f1 : String) (rfs : List String)
    (h1 : trim raw ≠ "") (hs : split_csv_simple (trim raw) = f0 :: f1 :: rfs)
    (h2 : ¬(upper f0 = "" ∨ f1 = "")) : lineOK raw = true := by
  unfold lineOK
  rw [if_neg h1, hs]
  dsimp only
  rw [if_neg h2]

/-- What an accepted line must look like. -/
theorem lineOK_elim (raw : String) (h : lineOK raw = true) :
    trim raw = "" ∨
      ∃ f0 f1 rfs, split_csv_simple (trim raw) = f0 :: f1 :: rfs ∧
        ¬(upper f0 = "" ∨ f1 = "") := by
  unfold lineOK at h
  by_cases hb : trim raw = ""
  · exact Or.inl hb
  · rw [if_neg hb] at h
    right
    split at h
    · rename_i f0 f1 rfs heq
      refine ⟨f0, f1, rfs, heq, ?_⟩
      intro hbad
      rw [if_pos hbad] at h
      exact Bool.false_ne_true h
    · exact absurd h Bool.false_ne_true

/-! ### The loop over a prefix of accepted lines -/

/-- Running the loop past a prefix of accepted lines advances the line
counter by the prefix length and folds the prefix's courses into the
temporary catalog. -/
theorem loadLines_append (pre suf : List String) (done : Nat) (temp : Catalog)
    (h : ∀ raw ∈ pre, lineOK raw = true) :
    loadLines done temp (pre ++ suf) =
      loadLines (done + pre.length) ((parsedCourses pre).foldl upsert temp) suf := by
  induction pre generalizing done temp with
  | nil => simp [parsedCourses]
  | cons raw pre ih =>
    have hraw := h raw (List.mem_cons_self _ _)
    have hrest : ∀ r ∈ pre, lineOK r = true := fun r hr => h r (List.mem_cons_of_mem _ hr)
    have harith : done + 1 + pre.length = done + (raw :: pre).length := by
      simp only [List.length_cons]
      omega
    rcases lineOK_elim raw hraw with hb | ⟨f0, f1, rfs, hs, hok⟩
    · rw [List.cons_append, loadLines_cons_blank _ _ _ _ hb, ih _ _ hrest, harith]
      simp only [parsedCourses]
      rw [List.filterMap_cons_none (parseCourse_blank raw hb)]
    · have hb := trim_ne_of_split_cons raw f0 (f1 :: rfs) hs
      rw [List.cons_append, loadLines_cons_course _ _ _ _ _ _ _ hb hs hok, ih _ _ hrest,
        harith]
      simp only [parsedCourses]
      rw [List.filterMap_cons_some (parseCourse_eq_some raw f0 f1 rfs hb hs hok),
        List.foldl_cons]

/-- A file of only blank lines loads into whatever temporary catalog the
loop started with. -/
theorem loadLines_all_blank (lines : List String) (h : ∀ l ∈ lines, trim l = "") :
    ∀ done temp, loadLines done temp lines = .ok temp := by
  induction lines with
  | nil => intro done temp; rfl
  | cons raw rest ih =>
    intro done temp
    rw [loadLines_cons_blank _ _ _ _ (h raw (List.mem_cons_self _ _))]
    exact ih (fun l hl => h l (List.mem_cons_of_mem _ hl)) _ _

/-- A successful run of the loop folds exactly the accepted lines'
courses over the starting temporary catalog. -/
theorem loadLines_ok_eq (lines : List String) :
    ∀ (done : Nat) (temp cat : Catalog), loadLines done temp lines = .ok cat →
      cat = (parsedCourses lines).foldl upsert temp := by
  induction lines with
  | nil =>
    intro done temp cat h
    injection h with h
    simp [parsedCourses, ← h]
  | cons raw rest ih =>
    intro done temp cat h
    by_cases hb : trim raw = ""
    · rw [loadLines_cons_blank _ _ _ _ hb] at h
      rw [ih _ _ _ h]
      simp only [parsedCourses]
      rw [List.filterMap_cons_none (parseCourse_blank raw hb)]
    · rcases hsplit : split_csv_simple (trim raw) with _ | ⟨f0, _ | ⟨f1, rfs⟩⟩
      · rw [loadLines_cons_short _ _ _ _ hb (by rw [hsplit]; simp)] at h
        exact absurd h (by simp)
      · rw [loadLines_cons_short _ _ _ _ hb (by rw [hsplit]; simp)] at h
        exact absurd h (by simp)
      · by_cases hv : upper f0 = "" ∨ f1 = ""
        · rw [loadLines_cons_invalid _ _ _ _ _ _ _ hb hsplit hv] at h
          exact absurd h (by simp)
        · rw [loadLines_cons_course _ _ _ _ _ _ _ hb hsplit hv] at h
          rw [ih _ _ _ h]
          simp only [parsedCourses]
          rw [List.filterMap_cons_some (parseCourse_eq_some raw f0 f1 rfs hb hsplit hv),
            List.foldl_cons]

/-- A successful run of the loop means every line was accepted. -/
theorem loadLines_ok_lineOK (lines : List String) :
    ∀ (done : Nat) (temp cat : Catalog), loadLines done temp lines = .ok cat →
      ∀ raw ∈ lines, lineOK raw = true := by
  induction lines with
  | nil => intro done temp cat _ raw hraw; simp at hraw
  | cons raw rest ih =>
    intro done temp cat h r hr
    by_cases hb : trim raw = ""
    · rw [loadLines_cons_blank _ _ _ _ hb] at h
      rcases List.mem_cons.1 hr with hr | hr
      · rw [hr]; exact lineOK_of_blank raw hb
      · exact ih _ _ _ h r hr
    · rcases hsplit : split_csv_simple (trim raw) with _ | ⟨f0, _ | ⟨f1, rfs⟩⟩
      · rw [loadLines_cons_short _ _ _ _ hb (by rw [hsplit]; simp)] at h
        exact absurd h (by simp)
      · rw [loadLines_cons_short _ _ _ _ hb (by rw [hsplit]; simp)] at h
        exact absurd h (by simp)
      · by_cases hv : upper f0 = "" ∨ f1 = ""
        · rw [loadLines_cons_invalid _ _ _ _ _ _ _ hb hsplit hv] at h
          exact absurd h (by simp)
        · rw [loadLines_cons_course _ _ _ _ _ _ _ hb hsplit hv] at h
          rcases List.mem_cons.1 hr with hr | hr
          · rw [hr]; exact lineOK_of_fields raw f0 f1 rfs hb hsplit hv
          · exact ih _ _ _ h r hr

/-! ### Folding courses into a catalog -/

/-- Looking up a key after folding a course sequence into a catalog finds
the latest course with that normalized number, falling back to the
starting catalog. -/
theorem lookup_foldl_upsert (rs : List Course) (cat : Catalog) (q : String) :
    lookup (rs.foldl upsert cat) q =
      (rs.reverse.find? (fun c => upper c.number == q)).or (lookup cat q) := by
  induction rs generalizing cat with
  | nil => simp
  | cons c rs ih =>
    rw [List.foldl_cons, ih, List.reverse_cons, List.find?_append, Option.or_assoc]
    congr 1
    by_cases hc : upper c.number = q
    · rw [lookup_upsert, if_pos hc]
      simp [List.find?, hc]
    · have hbeq : (upper c.number == q) = false := by simp [hc]
      rw [lookup_upsert, if_neg hc]
      simp [List.find?, hbeq]

/-- Entries after a fold of `upsert`s come from the starting catalog or
from one of the folded courses, stored at its normalized number. -/
theorem mem_foldl_upsert (rs : List Course) (cat : Catalog) (entry : String × Course)
    (h : entry ∈ rs.foldl upsert cat) :
    entry ∈ cat ∨ (entry.2 ∈ rs ∧ entry.1 = upper entry.2.number) := by
  induction rs generalizing cat with
  | nil => exact Or.inl h
  | cons c rs ih =>
    rw [List.foldl_cons] at h
    rcases ih _ h with h' | h'
    · rcases mem_setKV cat (upper c.number) c entry h' with h'' | h''
      · right
        rw [h'']
        exact ⟨List.mem_cons_self _ _, rfl⟩
      · exact Or.inl h''
    · right
      exact ⟨List.mem_cons_of_mem _ h'.1, h'.2⟩

/-! ### Catalog invariants over reachable states -/

theorem keysNormalized_upsert (cat : Catalog) (c : Course) (h : KeysNormalized cat) :
    KeysNormalized (upsert cat c) := by
  intro k c' hmem
  rcases mem_setKV cat (upper c.number) c _ hmem with h' | h'
  · have h1 : k = upper c.number := congrArg Prod.fst h'
    have h2 : c' = c := congrArg Prod.snd h'
    rw [h1, h2]
  · exact h _ _ h'

theorem keysNormalized_foldl (rs : List Course) (cat : Catalog) (h : KeysNormalized cat) :
    KeysNormalized (rs.foldl upsert cat) := by
  induction rs generalizing cat with
  | nil => exact h
  | cons c rs ih =>
    rw [List.foldl_cons]
    exact ih _ (keysNormalized_upsert cat c h)

theorem nodup_keys_foldl (rs : List Course) (cat : Catalog) (h : (keys cat).Nodup) :
    (keys (rs.foldl upsert cat)).Nodup := by
  induction rs generalizing cat with
  | nil => exact h
  | cons c rs ih =>
    rw [List.foldl_cons]
    exact ih _ (nodup_keys_setKV _ _ _ h)

/-- Every reachable catalog state has distinct keys. -/
theorem reachable_nodup_keys (cat : Catalog) (h : Reachable cat) : (keys cat).Nodup := by
  induction h with
  | init => simp [keys]
  | doUpsert c _ ih => exact nodup_keys_setKV _ _ _ ih
  | doClear _ _ => simp [clear, keys]
  | doLoad path file _ hload _ =>
    cases file with
    | none => exact absurd hload (by simp [load_catalog_from_csv])
    | some lines =>
      simp only [load_catalog_from_csv] at hload
      rw [loadLines_ok_eq lines 0 [] _ hload]
      exact nodup_keys_foldl _ _ (by simp [keys])

/-- Every reachable catalog state is case-fold consistent. -/
theorem reachable_keysNormalized (cat : Catalog) (h : Reachable cat) : KeysNormalized cat := by
  induction h with
  | init => intro k c hmem; simp at hmem
  | doUpsert c _ ih => exact keysNormalized_upsert _ _ ih
  | doClear _ _ => intro k c hmem; simp [clear] at hmem
  | doLoad path file _ hload _ =>
    cases file with
    | none => exact absurd hload (by simp [load_catalog_from_csv])
    | some lines =>
      simp only [load_catalog_from_csv] at hload
      rw [loadLines_ok_eq lines 0 [] _ hload]
      exact keysNormalized_foldl _ _ (fun k c hmem => by simp at hmem)

/-! ### Shape of the records a successful load stores -/

/-- Every entry of a successfully loaded catalog is one of the file's
parsed courses, stored at its normalized number. -/
theorem load_ok_entry (path : String) (lines : List String) (cat : Catalog)
    (h : load_catalog_from_csv path (some lines) = .ok cat) (k : String) (c : Course)
    (hmem : (k, c) ∈ cat) : c ∈ parsedCourses lines ∧ k = upper c.number := by
  simp only [load_catalog_from_csv] at h
  rw [loadLines_ok_eq lines 0 [] cat h] at hmem
  rcases mem_foldl_upsert _ _ _ hmem with h' | h'
  · simp at h'
  · exact ⟨h'.1, h'.2⟩

/-- A parsed course's number and prerequisites are fixed points of
normalization (they were produced by `upper`). -/
theorem parseCourse_normalized (raw : String) (c : Course) (h : parseCourse raw = some c) :
    upper c.number = c.number ∧ ∀ p ∈ c.prereqs, upper p = p := by
  unfold parseCourse at h
  by_cases hb : trim raw = ""
  · rw [if_pos hb] at h
    simp at h
  · rw [if_neg hb] at h
    split at h
    · rename_i f0 f1 rfs heq
      by_cases hv : upper f0 = "" ∨ f1 = ""
      · rw [if_pos hv] at h
        simp at h
      · rw [if_neg hv] at h
        injection h with h
        rw [← h]
        refine ⟨upper_upper f0, ?_⟩
        intro p hp
        rcases List.mem_filter.1 hp with ⟨hp1, _⟩
        rcases List.mem_map.1 hp1 with ⟨x, _, hx⟩
        rw [← hx]
        exact upper_upper x
    · simp at h

/-- Numbers stored in a loaded catalog coincide with their keys, and all
stored prerequisite strings are already normalized. -/
theorem load_ok_stored_shape (path : String) (lines : List String) (cat : Catalog)
    (h : load_catalog_from_csv path (some lines) = .ok cat) (k : String) (c : Course)
    (hmem : (k, c) ∈ cat) : c.number = k ∧ ∀ p ∈ c.prereqs, upper p = p := by
  obtain ⟨hc, hk⟩ := load_ok_entry path lines cat h k c hmem
  rcases List.mem_filterMap.1 hc with ⟨raw, _, hraw⟩
  obtain ⟨hnum, hps⟩ := parseCourse_normalized raw c hraw
  exact ⟨by rw [hk, hnum], hps⟩

/-! ### Display of prerequisites -/

/-- When stored numbers coincide with keys and the queried string is
normalization-fixed, a prerequisite entry is displayed exactly as
stored, resolved or not. -/
theorem displayedPrereq_self (cat : Catalog)
    (hfix : ∀ k c, (k, c) ∈ cat → c.number = k) (p : String) (hp : upper p = p) :
    displayedPrereq cat p = p := by
  unfold displayedPrereq get
  cases hl : lookup cat (upper p) with
  | none => rfl
  | some pc =>
    have hnum := hfix _ _ (lookup_mem _ _ _ hl)
    dsimp only
    rw [hnum, hp]

/-- The prerequisites line of the detail view, for catalogs whose stored
numbers coincide with keys and whose stored prerequisites are
normalization-fixed. -/
theorem prereqLine_eq (cat : Catalog) (c : Course)
    (hfix : ∀ k c', (k, c') ∈ cat → c'.number = k)
    (hps : ∀ p ∈ c.prereqs, upper p = p) :
    (c.prereqs = [] → prereqLine cat c = "Prerequisites: None") ∧
    (c.prereqs ≠ [] →
      prereqLine cat c = "Prerequisites: " ++ String.intercalate ", " c.prereqs) := by
  constructor
  · intro h
    simp [prereqLine, h]
  · intro h
    unfold prereqLine
    rw [if_neg (by simpa using h)]
    have hmap : c.prereqs.map (displayedPrereq cat) = c.prereqs := by
      rw [List.map_congr_left (fun p hp => displayedPrereq_self cat hfix p (hps p hp))]
      simp
    rw [hmap]

/-! ### Claim theorems -/

/-- C1: for every source file and every prior live catalog state, if the
load fails (open, parse, or invalid-data error), the live catalog —
including the empty initial state — is exactly what it was before; and
the freshly built catalog replaces the live one only when every line of
the source is accepted. -/
theorem load_failure_preserves_live_catalog (live : Catalog) (path : String)
    (file : Option (List String)) :
    (∀ e, load_catalog_from_csv path file = .error e →
      applyLoadCommand live path file = live) ∧
    (∀ newCat, load_catalog_from_csv path file = .ok newCat →
      applyLoadCommand live path file = newCat ∧
      ∀ lines, file = some lines → ∀ raw ∈ lines, lineOK raw = true) := by
  constructor
  · intro e he
    simp [applyLoadCommand, he]
  · intro newCat hok
    refine ⟨by simp [applyLoadCommand, hok], ?_⟩
    intro lines hfl raw hraw
    subst hfl
    simp only [load_catalog_from_csv] at hok
    exact loadLines_ok_lineOK lines 0 [] newCat hok raw hraw

/-- Witness for C1: a one-field line aborts the load and the (nonempty)
live catalog is untouched. -/
theorem load_failure_preserves_live_catalog_witness :
    applyLoadCommand [("CSCI100", ⟨"CSCI100", "Intro", []⟩)] "data.csv" (some ["oops"]) =
      [("CSCI100", ⟨"CSCI100", "Intro", []⟩)] :=
  (load_failure_preserves_live_catalog [("CSCI100", ⟨"CSCI100", "Intro", []⟩)]
    "data.csv" (some ["oops"])).1 (.parseError 1) (by rfl)

/-- C2: a successfully loaded catalog has distinct keys (exactly one
record per normalized identifier), lookups return the course of the last
accepted line with that normalized identifier (last write wins; the
parsed course carries that line's trimmed field 1 as its title), and the
keys are exactly the normalized identifiers appearing in the file. -/
theorem load_ok_last_write_wins (path : String) (lines : List String) (cat : Catalog)
    (h : load_catalog_from_csv path (some lines) = .ok cat) :
    (keys cat).Nodup ∧
    (∀ q, lookup cat q =
      (parsedCourses lines).reverse.find? (fun c => upper c.number == q)) ∧
    (∀ q, q ∈ keys cat ↔ ∃ c ∈ parsedCourses lines, upper c.number = q) := by
  simp only [load_catalog_from_csv] at h
  have heq := loadLines_ok_eq lines 0 [] cat h
  have hlook : ∀ q, lookup cat q =
      (parsedCourses lines).reverse.find? (fun c => upper c.number == q) := by
    intro q
    rw [heq, lookup_foldl_upsert]
    simp [lookup]
  refine ⟨?_, hlook, ?_⟩
  · rw [heq]
    exact nodup_keys_foldl _ _ (by simp [keys])
  · intro q
    rw [← lookup_isSome_iff, hlook q, List.find?_isSome]
    constructor
    · rintro ⟨c, hc, hp⟩
      exact ⟨c, List.mem_reverse.1 hc, by simpa using hp⟩
    · rintro ⟨c, hc, hp⟩
      exact ⟨c, List.mem_reverse.2 hc, by simpa using hp⟩

/-- Witness for C2: two lines with the same normalized identifier leave
one record, the later one. -/
theorem load_ok_last_write_wins_witness :
    lookup [("CSCI101", ⟨"CSCI101", "Second", []⟩)] "CSCI101" =
      (parsedCourses ["csci101,First", "CSCI101,Second"]).reverse.find?
        (fun c => upper c.number == "CSCI101") :=
  (load_ok_last_write_wins "f.csv" ["csci101,First", "CSCI101,Second"]
    [("CSCI101", ⟨"CSCI101", "Second", []⟩)] (by rfl)).2.1 "CSCI101"

/-- C3: `get` is case-insensitive — any query whose uppercased form
equals the uppercased form of a stored identifier returns the very same
record. (`get` is a total function of the embedding: it cannot throw.) -/
theorem get_case_insensitive (cat : Catalog) (i q : String) (c : Course)
    (hstored : get cat i = some c) (hq : upper q = upper i) : get cat q = some c := by
  unfold get at hstored ⊢
  rw [hq]
  exact hstored

/-- Witness for C3: after loading `csci101,Foo`, the catalog is
`[("CSCI101", ⟨"CSCI101", "Foo", []⟩)]`, and querying `CsCi101` returns
the record stored for `csci101`. -/
theorem get_case_insensitive_witness :
    get [("CSCI101", ⟨"CSCI101", "Foo", []⟩)] "CsCi101" = some ⟨"CSCI101", "Foo", []⟩ :=
  get_case_insensitive [("CSCI101", ⟨"CSCI101", "Foo", []⟩)] "csci101" "CsCi101"
    ⟨"CSCI101", "Foo", []⟩ (by rfl) (by rfl)

/-- C4: in every catalog state reachable by `upsert`, `clear`, and `load`
operations, every key equals the uppercased identifier of the record
stored under it. -/
theorem reachable_keys_are_normalized (cat : Catalog) (h : Reachable cat) (k : String)
    (c : Course) (hmem : (k, c) ∈ cat) : k = upper c.number :=
  reachable_keysNormalized cat h k c hmem

/-- Witness for C4: upserting a record with a lowercase number stores it
under the uppercased key. -/
theorem reachable_keys_are_normalized_witness : ("A" : String) = upper "a" :=
  reachable_keys_are_normalized (upsert [] ⟨"a", "T", []⟩)
    (Reachable.doUpsert ⟨"a", "T", []⟩ Reachable.init) "A" ⟨"a", "T", []⟩ (by decide)

/-- C5: in every reachable catalog state, `sorted_numbers` returns a
sorted sequence, with no duplicates, that is a permutation of (i.e.
contains exactly) the catalog's keys; as a pure function of the catalog
it trivially returns the same sequence on repeated calls with no
intervening mutation. -/
theorem sorted_numbers_sorted_nodup (cat : Catalog) (h : Reachable cat) :
    (sorted_numbers cat).Sorted (· ≤ ·) ∧ (sorted_numbers cat).Nodup ∧
      List.Perm (sorted_numbers cat) (keys cat) := by
  have hperm : List.Perm (sorted_numbers cat) (keys cat) := List.perm_insertionSort _ _
  refine ⟨List.sorted_insertionSort _ _, ?_, hperm⟩
  exact hperm.nodup_iff.2 (reachable_nodup_keys cat h)

/-- Witness for C5: a two-record reachable catalog, inserted in
descending order. -/
theorem sorted_numbers_sorted_nodup_witness :
    (sorted_numbers (upsert (upsert [] ⟨"b", "S", []⟩) ⟨"a", "T", []⟩)).Sorted (· ≤ ·) ∧
      (sorted_numbers (upsert (upsert [] ⟨"b", "S", []⟩) ⟨"a", "T", []⟩)).Nodup ∧
      List.Perm (sorted_numbers (upsert (upsert [] ⟨"b", "S", []⟩) ⟨"a", "T", []⟩))
        (keys (upsert (upsert [] ⟨"b", "S", []⟩) ⟨"a", "T", []⟩)) :=
  sorted_numbers_sorted_nodup (upsert (upsert [] ⟨"b", "S", []⟩) ⟨"a", "T", []⟩)
    (Reachable.doUpsert ⟨"a", "T", []⟩ (Reachable.doUpsert ⟨"b", "S", []⟩ Reachable.init))

/-- C6 (counterexample): the line `CSCI101,` is reported as a parse
error, not an invalid-data error — `std::getline` splitting drops the
trailing empty field after the final comma, so the line has a single
field and fails the two-field requirement. -/
theorem title_empty_example_is_parse_error :
    load_catalog_from_csv "courses.csv" (some ["CSCI101,"]) =
      .error (.parseError 1) := by rfl

/-- C6 (amended): for every non-blank line reached by the loader (all
earlier lines accepted) that splits into at least two fields, an empty
normalized identifier or empty trimmed title fails the load with an
invalid-data error naming that line's 1-based number (blank lines
counted) and aborts the entire load. -/
theorem invalid_data_on_empty_field (path : String) (pre : List String) (raw : String)
    (rest : List String) (f0 f1 : String) (rfs : List String)
    (hpre : ∀ l ∈ pre, lineOK l = true)
    (hs : split_csv_simple (trim raw) = f0 :: f1 :: rfs)
    (hv : upper f0 = "" ∨ f1 = "") :
    load_catalog_from_csv path (some (pre ++ raw :: rest)) =
      .error (.invalidDataError (pre.length + 1)) := by
  have hb : trim raw ≠ "" := trim_ne_of_split_cons raw f0 (f1 :: rfs) hs
  simp only [load_catalog_from_csv]
  rw [loadLines_append pre (raw :: rest) 0 [] hpre,
    loadLines_cons_invalid _ _ _ _ _ _ _ hb hs hv]
  simp

/-- Witness for the amended C6: a line with an empty title field (written
`CSCI101,,` so that two fields survive splitting) after one good line is
an invalid-data error naming line 2. -/
theorem invalid_data_on_empty_field_witness :
    load_catalog_from_csv "f.csv" (some ["A,B", "CSCI101,,"]) =
      .error (.invalidDataError 2) :=
  invalid_data_on_empty_field "f.csv" ["A,B"] "CSCI101,," [] "CSCI101" "" []
    (by decide) (by rfl) (Or.inr rfl)

/-- C7 (counterexample): the menu input `1x` is not one of the options
`1`, `2`, `3`, `9`, yet `std::stoi` parses its integer prefix `1` and the
menu executes command 1 instead of rejecting the input. -/
theorem menu_option_text_executes_command : menu_step (some "1x") = .command 1 := by rfl

/-- C7 (amended): blank input (after trimming) gets the dedicated prompt
message; trimmed input longer than two characters, or with no parsable
integer prefix, executes no command and is echoed (trimmed) in the
invalid-option message; trimmed input of length at most two whose integer
prefix parses to a value outside {1, 2, 3, 9} executes no command and the
message echoes that parsed integer (so `07` is echoed as `7`); but an
input whose integer prefix parses to 1, 2, 3, or 9 (such as `1x`)
executes that command. -/
theorem menu_invalid_inputs (raw : String) :
    (trim raw = "" → menu_step (some raw) = .blankPrompt) ∧
    (trim raw ≠ "" → 2 < (trim raw).length →
      menu_step (some raw) = .invalidRaw (trim raw)) ∧
    (trim raw ≠ "" → ¬2 < (trim raw).length → stoi (trim raw) = none →
      menu_step (some raw) = .invalidRaw (trim raw)) ∧
    (∀ n, trim raw ≠ "" → ¬2 < (trim raw).length → stoi (trim raw) = some n →
      ¬(n = 1 ∨ n = 2 ∨ n = 3 ∨ n = 9) → menu_step (some raw) = .invalidNum n) := by
  refine ⟨?_, ?_, ?_, ?_⟩
  · intro h
    simp [menu_step, h]
  · intro h1 h2
    simp [menu_step, h1, h2]
  · intro h1 h2 h3
    simp [menu_step, h1, h2, h3]
  · intro n h1 h2 h3 h4
    simp [menu_step, h1, h2, h3, h4]

/-- Witness for the amended C7: `07` parses to 7, executes nothing, and
the message echoes `7`, not the typed `07`. -/
theorem menu_invalid_inputs_witness : menu_step (some "07") = .invalidNum 7 :=
  (menu_invalid_inputs "07").2.2.2 7 (by decide) (by decide) (by rfl) (by decide)

/-- C8: a non-blank line reached by the loader (all earlier lines
accepted, blank lines counted in the numbering) that splits into fewer
than two fields fails the load with a parse error naming that line's
1-based number; the error return carries no partial catalog. -/
theorem parse_error_on_short_line (path : String) (pre : List String) (raw : String)
    (rest : List String) (hpre : ∀ l ∈ pre, lineOK l = true) (hb : trim raw ≠ "")
    (hlen : (split_csv_simple (trim raw)).length < 2) :
    load_catalog_from_csv path (some (pre ++ raw :: rest)) =
      .error (.parseError (pre.length + 1)) := by
  simp only [load_catalog_from_csv]
  rw [loadLines_append pre (raw :: rest) 0 [] hpre,
    loadLines_cons_short _ _ _ _ hb hlen]
  simp

/-- Witness for C8: a one-field line after one blank line is a parse
error naming line 2 — the blank line is counted. -/
theorem parse_error_on_short_line_witness :
    load_catalog_from_csv "g.csv" (some ["", "MATH201"]) = .error (.parseError 2) :=
  parse_error_on_short_line "g.csv" [""] "MATH201" [] (by decide) (by decide) (by decide)

/-- C9: an accepted line's course takes as prerequisites exactly the
fields from index 2 on, each uppercased, with empty-after-trimming fields
excluded, in file order; and on a loaded catalog, the detail view prints
the course header followed by the stored prerequisites joined by a comma
and a space in stored order — each one exactly as stored, resolved or not
— or `None` when the list is empty. -/
theorem prereq_parse_and_display :
    (∀ raw f0 f1 rfs, split_csv_simple (trim raw) = f0 :: f1 :: rfs →
      ¬(upper f0 = "" ∨ f1 = "") →
      parseCourse raw = some ⟨upper f0, f1, (rfs.map upper).filter (fun p => p ≠ "")⟩) ∧
    (∀ path lines cat q c, load_catalog_from_csv path (some lines) = .ok cat →
      get cat q = some c →
      print_course_details cat q = [c.number ++ ", " ++ c.title, prereqLine cat c] ∧
      (c.prereqs = [] → prereqLine cat c = "Prerequisites: None") ∧
      (c.prereqs ≠ [] →
        prereqLine cat c = "Prerequisites: " ++ String.intercalate ", " c.prereqs)) := by
  constructor
  · intro raw f0 f1 rfs hs hv
    exact parseCourse_eq_some raw f0 f1 rfs (trim_ne_of_split_cons raw f0 (f1 :: rfs) hs)
      hs hv
  · intro path lines cat q c hload hget
    unfold get at hget
    have hfix : ∀ k c', (k, c') ∈ cat → c'.number = k := fun k c' hm =>
      (load_ok_stored_shape path lines cat hload k c' hm).1
    have hmemc : (upper q, c) ∈ cat := lookup_mem _ _ _ hget
    have hps : ∀ p ∈ c.prereqs, upper p = p :=
      (load_ok_stored_shape path lines cat hload _ _ hmemc).2
    have hline := prereqLine_eq cat c hfix hps
    refine ⟨?_, hline.1, hline.2⟩
    unfold print_course_details
    have hq2 : get cat (upper q) = some c := by
      unfold get
      rw [upper_upper]
      exact hget
    rw [hq2]

/-- Witness for C9: the loaded catalog for
`CSCI200,Data Structures,CSCI101,MATH201`; `MATH201` is absent from the
catalog and still displayed verbatim. -/
theorem prereq_parse_and_display_witness :
    print_course_details
        [("CSCI200", ⟨"CSCI200", "Data Structures", ["CSCI101", "MATH201"]⟩)] "csci200" =
      ["CSCI200, Data Structures", "Prerequisites: CSCI101, MATH201"] := by
  have h := prereq_parse_and_display.2 "f.csv" ["CSCI200,Data Structures,CSCI101,MATH201"]
    [("CSCI200", ⟨"CSCI200", "Data Structures", ["CSCI101", "MATH201"]⟩)] "csci200"
    ⟨"CSCI200", "Data Structures", ["CSCI101", "MATH201"]⟩ (by rfl) (by rfl)
  rw [h.1, h.2.2 (by simp)]
  rfl

/-- C10: a file all of whose lines are blank after trimming (including
the empty file) loads successfully into the empty catalog. -/
theorem blank_file_loads_empty (path : String) (lines : List String)
    (h : ∀ l ∈ lines, trim l = "") :
    load_catalog_from_csv path (some lines) = .ok [] := by
  simp only [load_catalog_from_csv]
  exact loadLines_all_blank lines h 0 []

/-- Witness for C10: an empty line and a whitespace line load into the
empty catalog. -/
theorem blank_file_loads_empty_witness :
    load_catalog_from_csv "empty.csv" (some ["", "   "]) = .ok [] :=
  blank_file_loads_empty "empty.csv" ["", "   "] (by decide)

end ProjectTwo
